import Mathlib

/-!
Shallow embedding of the Render3D CPU rasterizer: the class-based renderer of
render3d.ts and the array-based optimized renderer of the companion source
file.  Machine numbers are modelled as elements of a linear ordered field
with a floor structure (the theorems instantiate it at the rationals); the
depth-buffer value Infinity is modelled as the top element of WithTop.  The
framebuffer and depth buffer are explicit state threaded through the
rasterization loops, which are modelled as left folds over the pixel lists
of the clamped bounding boxes.
-/

namespace Render3D

variable {α : Type} [LinearOrderedField α] [FloorRing α]
variable {υ υ' : Type}

/-- Vector of three number components (class Vec3 in render3d.ts). -/
structure Vec3 (R : Type) where
  x : R
  y : R
  z : R
deriving DecidableEq

/-- Homogeneous four-component vector (class Vec4 in render3d.ts); in the
source w defaults to 1 at construction, which we always spell out. -/
structure Vec4 (R : Type) where
  x : R
  y : R
  z : R
  w : R
deriving DecidableEq

/-- A 4x4 matrix.  The source stores the sixteen entries in a flat array m
with the entry of row i, column j at index i*4+j (the comment in the source
says column-major but the spec and all the constructors use the row-major
reading); we model the same sixteen entries as the curried function m i j. -/
@[ext]
structure Mat4 (R : Type) where
  m : Fin 4 → Fin 4 → R

/-- Mat4.identity: a fresh Mat4, whose array is the identity pattern
1,0,0,0, 0,1,0,0, 0,0,1,0, 0,0,0,1. -/
def Mat4.identity : Mat4 α :=
  ⟨fun i j => if i = j then 1 else 0⟩

/-- Mat4.multiply: result.m[i*4+j] = sum over k of a.m[i*4+k] * b.m[k*4+j]. -/
def Mat4.multiply (a b : Mat4 α) : Mat4 α :=
  ⟨fun i j => ∑ k : Fin 4, a.m i k * b.m k j⟩

/-- Mat4.multiplyVec4: the standard matrix-vector product, row by row as in
the source (m.m[0]*v.x + m.m[1]*v.y + m.m[2]*v.z + m.m[3]*v.w and so on). -/
def Mat4.multiplyVec4 (a : Mat4 α) (v : Vec4 α) : Vec4 α :=
  ⟨a.m 0 0 * v.x + a.m 0 1 * v.y + a.m 0 2 * v.z + a.m 0 3 * v.w,
   a.m 1 0 * v.x + a.m 1 1 * v.y + a.m 1 2 * v.z + a.m 1 3 * v.w,
   a.m 2 0 * v.x + a.m 2 1 * v.y + a.m 2 2 * v.z + a.m 2 3 * v.w,
   a.m 3 0 * v.x + a.m 3 1 * v.y + a.m 3 2 * v.z + a.m 3 3 * v.w⟩

/-- Mat4.perspective with the factor f = 1/tan(fov/2) already computed: the
source starts from the identity matrix and overwrites m[0] = f/aspect,
m[5] = f, m[10] = (far+near)*nf, m[11] = 2*far*near*nf, m[14] = -1,
m[15] = 0, where nf = 1/(near-far); every other entry of the result is 0
except the six just listed, written out here row by row. -/
def Mat4.perspectiveF (f aspect near far : α) : Mat4 α :=
  ⟨![![f / aspect, 0, 0, 0],
     ![0, f, 0, 0],
     ![0, 0, (far + near) * (1 / (near - far)), 2 * far * near * (1 / (near - far))],
     ![0, 0, -1, 0]]⟩

/-- Mat4.perspective(fov, aspect, near, far): computes f = 1/Math.tan(fov/2)
and fills the matrix as in Mat4.perspectiveF. -/
noncomputable def Mat4.perspective (fov aspect near far : ℝ) : Mat4 ℝ :=
  Mat4.perspectiveF (1 / Real.tan (fov / 2)) aspect near far

/-! ## Shader data model (class-based renderer)

The source VertexOutput is a javascript object with a position field of type
Vec4 plus arbitrary extra named values; interpolateVarying inspects each
extra value and blends those that are numbers or Vec3 instances.  We model
the dynamic bag as an association list from names to a tagged union of the
two shapes the source handles (the spec design note 9 option (b)). -/

/-- Tagged union of the two varying value shapes the source interpolates:
a plain number or a Vec3 instance. -/
inductive VaryVal (R : Type) where
  | num : R → VaryVal R
  | vec : Vec3 R → VaryVal R
deriving DecidableEq

/-- VertexAttributes: a position plus the extra named attributes. -/
structure VertexAttributes (R : Type) where
  position : Vec3 R
  extra : List (String × VaryVal R)

instance : Inhabited (VertexAttributes α) :=
  ⟨⟨⟨0, 0, 0⟩, []⟩⟩

/-- VertexOutput: the clip-space position plus the named varying outputs. -/
structure VertexOutput (R : Type) where
  position : Vec4 R
  varying : List (String × VaryVal R)
deriving DecidableEq

/-- Geometry: the vertex buffer and the flat index list. -/
structure Geometry (R : Type) where
  vertices : List (VertexAttributes R)
  indices : List Nat

/-- Barycentric weight triple returned by Renderer.barycentric. -/
structure Bary (R : Type) where
  u : R
  v : R
  w : R
deriving DecidableEq

/-- Screen-space point {x, y, z} returned by Renderer.toScreen: x and y are
the floored pixel coordinates (still stored as numbers) and z is the
untouched NDC depth. -/
structure ScreenPt (R : Type) where
  x : R
  y : R
  z : R
deriving DecidableEq

/-- Renderer state: the framebuffer image (indexed by the setPixel pair
(x, y), holding palette indices) and the depth buffer (indexed by
idx = y*width+x, holding Infinity = top or a finite depth). -/
structure RenderState (R : Type) [LinearOrder R] where
  fb : ℤ × ℤ → ℤ
  depth : ℤ → WithTop R

/-- The renderer state right after construction and also right after
clear(): every framebuffer pixel 0 (black), every depth cell Infinity. -/
def RenderState.cleared : RenderState α :=
  ⟨fun _ => 0, fun _ => ⊤⟩

/-- Renderer.perspectiveDivide: if |v.w| < 0.0001 return (v.x, v.y, v.z)
unchanged, otherwise divide the three components by v.w. -/
def perspectiveDivide (v : Vec4 α) : Vec3 α :=
  if |v.w| < 1 / 10000 then ⟨v.x, v.y, v.z⟩
  else ⟨v.x / v.w, v.y / v.w, v.z / v.w⟩

/-- Renderer.toScreen: pixel x = floor((ndc.x + 1) * 0.5 * width), pixel
y = floor((1 - ndc.y) * 0.5 * height), z passed through unchanged. -/
def toScreen (width height : ℤ) (ndc : Vec3 α) : ScreenPt α :=
  ⟨((⌊(ndc.x + 1) * (1 / 2) * (width : α)⌋ : ℤ) : α),
   ((⌊(1 - ndc.y) * (1 / 2) * (height : α)⌋ : ℤ) : α),
   ndc.z⟩

/-- Renderer.barycentric: the signed-area solve; if the double area denom
has |denom| < 0.001 the function bails out with (-1, -1, -1), otherwise
u = 1 - v - w with v, w the two Cramer quotients. -/
def barycentric (x y : α) (p0 p1 p2 : ScreenPt α) : Bary α :=
  let v0x := p1.x - p0.x
  let v0y := p1.y - p0.y
  let v1x := p2.x - p0.x
  let v1y := p2.y - p0.y
  let v2x := x - p0.x
  let v2y := y - p0.y
  let denom := v0x * v1y - v1x * v0y
  if |denom| < 1 / 1000 then ⟨-1, -1, -1⟩
  else
    let v := (v2x * v1y - v1x * v2y) / denom
    let w := (v0x * v2y - v2x * v0y) / denom
    ⟨1 - v - w, v, w⟩

/-- Blends one varying value across the three vertex outputs with the
weights (u, v, w).  The source blends when val0 is a number (with the other
two read at the same key) or a Vec3 instance (componentwise); combinations
where one of the other two vertices does not carry a value of the same
shape at that key are skipped, the reproduction prescribed by spec section
7 for the otherwise-undefined source behaviour. -/
def blendVal (b : Bary α) :
    VaryVal α → Option (VaryVal α) → Option (VaryVal α) → Option (VaryVal α)
  | VaryVal.num a0, some (VaryVal.num a1), some (VaryVal.num a2) =>
      some (VaryVal.num (a0 * b.u + a1 * b.v + a2 * b.w))
  | VaryVal.vec a0, some (VaryVal.vec a1), some (VaryVal.vec a2) =>
      some (VaryVal.vec ⟨a0.x * b.u + a1.x * b.v + a2.x * b.w,
                         a0.y * b.u + a1.y * b.v + a2.y * b.w,
                         a0.z * b.u + a1.z * b.v + a2.z * b.w⟩)
  | _, _, _ => none

/-- Renderer.interpolateVarying: result.position = new Vec4() = (0,0,0,1);
for each named value of the first vertex output (the position field is kept
apart by our representation, so no explicit skip is needed) look the name up
in the other two outputs and blend. -/
def interpolateVarying (v0 v1 v2 : VertexOutput α) (b : Bary α) : VertexOutput α :=
  ⟨⟨0, 0, 0, 1⟩,
   v0.varying.filterMap fun kv =>
     (blendVal b kv.2 (List.lookup kv.1 v1.varying) (List.lookup kv.1 v2.varying)).map
       fun bl => (kv.1, bl)⟩

/-- The framebuffer write value: Math.max(0, Math.min(15, Math.floor(color))). -/
def clampColor (c : α) : ℤ :=
  max 0 (min 15 ⌊c⌋)

/-- Integer interval a..b inclusive, the index range of a for loop from a
to b. -/
def intRange (a b : ℤ) : List ℤ :=
  (List.range (b + 1 - a).toNat).map fun i => a + (i : ℤ)

/-- The pixel (x, y) pairs visited by the nested rasterization loops: y
from minY to maxY outermost, x from minX to maxX inside. -/
def pixelList (minX maxX minY maxY : ℤ) : List (ℤ × ℤ) :=
  (intRange minY maxY).flatMap fun y => (intRange minX maxX).map fun x => (x, y)

/-- All the per-triangle data rasterizeTriangle receives: the three screen
points and the three vertex-shader outputs. -/
structure TriJob (R : Type) where
  p0 : ScreenPt R
  p1 : ScreenPt R
  p2 : ScreenPt R
  v0 : VertexOutput R
  v1 : VertexOutput R
  v2 : VertexOutput R

/-- The clamped integer bounding box of rasterizeTriangle, as the list of
pixels its loops visit: minX = max(0, floor(min of the three x)), maxX =
min(width-1, ceil(max of the three x)), same for y. -/
def triPixels (width height : ℤ) (t : TriJob α) : List (ℤ × ℤ) :=
  pixelList (max 0 ⌊min t.p0.x (min t.p1.x t.p2.x)⌋)
    (min (width - 1) ⌈max t.p0.x (max t.p1.x t.p2.x)⌉)
    (max 0 ⌊min t.p0.y (min t.p1.y t.p2.y)⌋)
    (min (height - 1) ⌈max t.p0.y (max t.p1.y t.p2.y)⌉)

/-- The barycentric triple of the pixel (x, y) against the job's screen
points. -/
abbrev pixBary (t : TriJob α) (xy : ℤ × ℤ) : Bary α :=
  barycentric (xy.1 : α) (xy.2 : α) t.p0 t.p1 t.p2

/-- Coverage test of the rasterization loop body: all three weights
nonnegative. -/
abbrev covered (t : TriJob α) (xy : ℤ × ℤ) : Prop :=
  0 ≤ (pixBary t xy).u ∧ 0 ≤ (pixBary t xy).v ∧ 0 ≤ (pixBary t xy).w

/-- The interpolated depth z = p0.z*u + p1.z*v + p2.z*w of the loop body. -/
abbrev pixZ (t : TriJob α) (xy : ℤ × ℤ) : α :=
  t.p0.z * (pixBary t xy).u + t.p1.z * (pixBary t xy).v + t.p2.z * (pixBary t xy).w

/-- The depth-buffer index idx = y * width + x of the loop body. -/
abbrev pixIdx (width : ℤ) (xy : ℤ × ℤ) : ℤ :=
  xy.2 * width + xy.1

/-- One iteration of the rasterization loops at pixel (x, y): coverage
test, then the strict depth test z < depthBuffer[idx]; on acceptance the
depth cell is overwritten with z and the framebuffer pixel with the
clamped fragment-shader output on the interpolated varyings. -/
def rasterPixel (width : ℤ) (fragShader : VertexOutput α → υ → α) (uniforms : υ)
    (t : TriJob α) (st : RenderState α) (xy : ℤ × ℤ) : RenderState α :=
  if covered t xy then
    if ((pixZ t xy : α) : WithTop α) < st.depth (pixIdx width xy) then
      ⟨fun q => if q = xy then
          clampColor (fragShader (interpolateVarying t.v0 t.v1 t.v2 (pixBary t xy)) uniforms)
        else st.fb q,
       fun q => if q = pixIdx width xy then ((pixZ t xy : α) : WithTop α) else st.depth q⟩
    else st
  else st

/-- Renderer.rasterizeTriangle: fold the loop body over the bounding-box
pixels. -/
def rasterizeTriangle (width height : ℤ) (fragShader : VertexOutput α → υ → α)
    (uniforms : υ) (t : TriJob α) (st : RenderState α) : RenderState α :=
  (triPixels width height t).foldl (rasterPixel width fragShader uniforms t) st

/-- The index triples of the triangle loop for (i = 0; i < length; i += 3);
a trailing incomplete group is not a triangle and is dropped. -/
def triples : List Nat → List (Nat × Nat × Nat)
  | i0 :: i1 :: i2 :: rest => (i0, i1, i2) :: triples rest
  | _ => []

/-- The per-triangle front end of Renderer.render: run the vertex shader on
the three vertices, perspective-divide the clip positions, map to screen. -/
def shadeTri (geom : Geometry α) (vertShader : VertexAttributes α → υ → VertexOutput α)
    (uniforms : υ) (width height : ℤ) (tri : Nat × Nat × Nat) : TriJob α :=
  let v0 := vertShader (geom.vertices.getD tri.1 default) uniforms
  let v1 := vertShader (geom.vertices.getD tri.2.1 default) uniforms
  let v2 := vertShader (geom.vertices.getD tri.2.2 default) uniforms
  ⟨toScreen width height (perspectiveDivide v0.position),
   toScreen width height (perspectiveDivide v1.position),
   toScreen width height (perspectiveDivide v2.position),
   v0, v1, v2⟩

/-- Renderer.render: for each index triple, shade the three vertices and
rasterize the triangle into the accumulated state. -/
def render (width height : ℤ) (geom : Geometry α)
    (vertShader : VertexAttributes α → υ → VertexOutput α)
    (fragShader : VertexOutput α → υ → α) (uniforms : υ)
    (st : RenderState α) : RenderState α :=
  (triples geom.indices).foldl
    (fun s tri =>
      rasterizeTriangle width height fragShader uniforms
        (shadeTri geom vertShader uniforms width height tri) s) st

/-! ## Flattened pixel-job view of render

Vertex shading is independent of the render state, so a render call is the
left fold of the per-pixel body over the flat list of (triangle, pixel)
jobs.  The lemmas about the depth buffer are proved against this view. -/

/-- The flat list of (shaded triangle, pixel) jobs a render call visits. -/
def renderJobs (width height : ℤ) (geom : Geometry α)
    (vertShader : VertexAttributes α → υ → VertexOutput α) (uniforms : υ) :
    List (TriJob α × (ℤ × ℤ)) :=
  (triples geom.indices).flatMap fun tri =>
    let t := shadeTri geom vertShader uniforms width height tri
    (triPixels width height t).map fun xy => (t, xy)

/-- The per-pixel body applied to one flat job. -/
def applyJob (width : ℤ) (fragShader : VertexOutput α → υ → α) (uniforms : υ)
    (st : RenderState α) (j : TriJob α × (ℤ × ℤ)) : RenderState α :=
  rasterPixel width fragShader uniforms j.1 st j.2

/-! ## Optimized renderer (the array-based companion source)

Vectors are plain number arrays there; reads are modelled with getD, whose
default is irrelevant on the in-range accesses the claims exercise.  The
normal triple handed to the fragment shader is a three-component value, kept
as a Vec3 record. -/

namespace Opt

/-- Vertex record {p, n} of the optimized Geo: position and normal. -/
structure VertexO (R : Type) where
  p : Vec3 R
  n : Vec3 R

instance : Inhabited (VertexO α) :=
  ⟨⟨⟨0, 0, 0⟩, ⟨0, 0, 0⟩⟩⟩

/-- Geo: the vertex list v and the flat index list i. -/
structure Geo (R : Type) where
  v : List (VertexO R)
  i : List Nat

/-- Renderer.toScreen of the optimized source: the perspective divide is
fused with the viewport map, and a near-zero w short-circuits the whole
function to the screen point [0, 0, 0]. -/
def toScreen (width height : ℤ) (v : List α) : List α :=
  let w := v.getD 3 0
  if |w| < 1 / 10000 then [0, 0, 0]
  else
    let x := v.getD 0 0 / w
    let y := v.getD 1 0 / w
    let z := v.getD 2 0 / w
    [((⌊(x + 1) * (1 / 2) * (width : α)⌋ : ℤ) : α),
     ((⌊(1 - y) * (1 / 2) * (height : α)⌋ : ℤ) : α),
     z]

/-- Renderer.bary of the optimized source: same signed-area solve as the
class-based barycentric, on [x, y, .] arrays, returning [u, v, w]. -/
def bary (x y : α) (p0 p1 p2 : List α) : List α :=
  let v0x := p1.getD 0 0 - p0.getD 0 0
  let v0y := p1.getD 1 0 - p0.getD 1 0
  let v1x := p2.getD 0 0 - p0.getD 0 0
  let v1y := p2.getD 1 0 - p0.getD 1 0
  let v2x := x - p0.getD 0 0
  let v2y := y - p0.getD 1 0
  let denom := v0x * v1y - v1x * v0y
  if |denom| < 1 / 1000 then [-1, -1, -1]
  else
    let v := (v2x * v1y - v1x * v2y) / denom
    let w := (v0x * v2y - v2x * v0y) / denom
    [1 - v - w, v, w]

/-- The bounding-box pixel list of Renderer.tri: same clamped box as the
class-based renderer, with the two-argument Math.min and Math.max nested. -/
def triPixels (width height : ℤ) (p0 p1 p2 : List α) : List (ℤ × ℤ) :=
  pixelList (max 0 ⌊min (p0.getD 0 0) (min (p1.getD 0 0) (p2.getD 0 0))⌋)
    (min (width - 1) ⌈max (p0.getD 0 0) (max (p1.getD 0 0) (p2.getD 0 0))⌉)
    (max 0 ⌊min (p0.getD 1 0) (min (p1.getD 1 0) (p2.getD 1 0))⌋)
    (min (height - 1) ⌈max (p0.getD 1 0) (max (p1.getD 1 0) (p2.getD 1 0))⌉)

/-- One iteration of the scan loops of Renderer.tri: coverage on b, strict
depth test, then depth write, normal interpolation, fragment shader and
clamped framebuffer write. -/
def triStep (width : ℤ) (fragShader : Vec3 α → υ → α) (uniforms : υ)
    (p0 p1 p2 : List α) (n0 n1 n2 : Vec3 α)
    (st : RenderState α) (xy : ℤ × ℤ) : RenderState α :=
  let b := bary (xy.1 : α) (xy.2 : α) p0 p1 p2
  if 0 ≤ b.getD 0 0 ∧ 0 ≤ b.getD 1 0 ∧ 0 ≤ b.getD 2 0 then
    let z := p0.getD 2 0 * b.getD 0 0 + p1.getD 2 0 * b.getD 1 0 + p2.getD 2 0 * b.getD 2 0
    let idx := xy.2 * width + xy.1
    if ((z : α) : WithTop α) < st.depth idx then
      let n : Vec3 α :=
        ⟨n0.x * b.getD 0 0 + n1.x * b.getD 1 0 + n2.x * b.getD 2 0,
         n0.y * b.getD 0 0 + n1.y * b.getD 1 0 + n2.y * b.getD 2 0,
         n0.z * b.getD 0 0 + n1.z * b.getD 1 0 + n2.z * b.getD 2 0⟩
      ⟨fun q => if q = xy then clampColor (fragShader n uniforms) else st.fb q,
       fun q => if q = idx then ((z : α) : WithTop α) else st.depth q⟩
    else st
  else st

/-- Renderer.tri: fold the scan-loop body over the bounding-box pixels. -/
def tri (width height : ℤ) (fragShader : Vec3 α → υ → α) (uniforms : υ)
    (p0 p1 p2 : List α) (n0 n1 n2 : Vec3 α) (st : RenderState α) : RenderState α :=
  (triPixels width height p0 p1 p2).foldl
    (triStep width fragShader uniforms p0 p1 p2 n0 n1 n2) st

/-- Renderer.render of the optimized source: per index triple, run the
vertex shader on position and normal of each vertex (it returns the array
[x, y, z, w, nx, ny, nz]), map through toScreen, extract the normals from
slots 4..6, and rasterize with tri. -/
def render (width height : ℤ) (geo : Geo α)
    (vertShader : Vec3 α → Vec3 α → υ → List α)
    (fragShader : Vec3 α → υ → α) (uniforms : υ)
    (st : RenderState α) : RenderState α :=
  (triples geo.i).foldl
    (fun s tr =>
      let v0 := vertShader (geo.v.getD tr.1 default).p (geo.v.getD tr.1 default).n uniforms
      let v1 := vertShader (geo.v.getD tr.2.1 default).p (geo.v.getD tr.2.1 default).n uniforms
      let v2 := vertShader (geo.v.getD tr.2.2 default).p (geo.v.getD tr.2.2 default).n uniforms
      tri width height fragShader uniforms
        (toScreen width height v0) (toScreen width height v1) (toScreen width height v2)
        ⟨v0.getD 4 0, v0.getD 5 0, v0.getD 6 0⟩
        ⟨v1.getD 4 0, v1.getD 5 0, v1.getD 6 0⟩
        ⟨v2.getD 4 0, v2.getD 5 0, v2.getD 6 0⟩ s) st

end Opt

/-- One class-based draw call: geometry, shaders and uniforms of one
render(...) invocation. -/
structure DrawCallC (M : Type) where
  geom : Geometry ℚ
  vs : VertexAttributes ℚ → M → VertexOutput ℚ
  fs : VertexOutput ℚ → M → ℚ
  u : M

/-- One optimized draw call: geometry, shaders and uniforms of one
render(...) invocation of the array-based renderer. -/
structure DrawCallO (M : Type) where
  geo : Opt.Geo ℚ
  vs : Vec3 ℚ → Vec3 ℚ → M → List ℚ
  fs : Vec3 ℚ → M → ℚ
  u : M

/-- Correspondence of a class-based and an optimized draw call: the same
index list; on every index the list uses, the class vertex shader emits a
clip position of |w| >= 1e-4 together with exactly one Vec3 varying named
normal, and the optimized vertex shader emits the matching seven-component
array; and the two fragment shaders agree on every interpolated normal
(the class one receiving it in the varying bag with the reset position
(0,0,0,1)). -/
def Corr {M M' : Type} (dc : DrawCallC M) (dop : DrawCallO M') : Prop :=
  dc.geom.indices = dop.geo.i ∧
  (∀ j ∈ dc.geom.indices, ∃ p n,
    dc.vs (dc.geom.vertices.getD j default) dc.u = ⟨p, [("normal", VaryVal.vec n)]⟩ ∧
    1 / 10000 ≤ |p.w| ∧
    dop.vs (dop.geo.v.getD j default).p (dop.geo.v.getD j default).n dop.u =
      [p.x, p.y, p.z, p.w, n.x, n.y, n.z]) ∧
  (∀ nv : Vec3 ℚ,
    dc.fs ⟨⟨0, 0, 0, 1⟩, [("normal", VaryVal.vec nv)]⟩ dc.u = dop.fs nv dop.u)

/-- Runs one class-based draw call into the state. -/
def runC {M : Type} (width height : ℤ) (st : RenderState ℚ) (dc : DrawCallC M) :
    RenderState ℚ :=
  render width height dc.geom dc.vs dc.fs dc.u st

/-- Runs one optimized draw call into the state. -/
def runO {M : Type} (width height : ℤ) (st : RenderState ℚ) (dop : DrawCallO M) :
    RenderState ℚ :=
  Opt.render width height dop.geo dop.vs dop.fs dop.u st

/-- Concrete class-based draw call for the equivalence witness: one
triangle, position copied to clip space with w = 1 and into the normal
varying, constant fragment intensity 9. -/
def wDrawC : DrawCallC Unit :=
  ⟨⟨[⟨⟨0, 0, 0⟩, []⟩, ⟨⟨2, 0, 0⟩, []⟩, ⟨⟨0, 2, 0⟩, []⟩], [0, 1, 2]⟩,
   fun a _ => ⟨⟨a.position.x, a.position.y, a.position.z, 1⟩,
     [("normal", VaryVal.vec a.position)]⟩,
   fun _ _ => 9, ()⟩

/-- The optimized draw call matching wDrawC. -/
def wDrawO : DrawCallO Unit :=
  ⟨⟨[⟨⟨0, 0, 0⟩, ⟨0, 0, 1⟩⟩, ⟨⟨2, 0, 0⟩, ⟨0, 0, 1⟩⟩, ⟨⟨0, 2, 0⟩, ⟨0, 0, 1⟩⟩], [0, 1, 2]⟩,
   fun p _ _ => [p.x, p.y, p.z, 1, p.x, p.y, p.z],
   fun _ _ => 9, ()⟩

/-- Minimum of a list of finite depths together with Infinity. -/
def listMinW (l : List α) : WithTop α :=
  l.foldr (fun a m => min (a : WithTop α) m) ⊤

/-- The depths accepted at depth-buffer cell q along a run of pixel jobs
from a given starting state: the interpolated z values of the jobs that
were covered, aimed at cell q, and passed the strict depth test against the
state at their moment. -/
def acceptedAt (width : ℤ) (fragShader : VertexOutput α → υ → α) (uniforms : υ) :
    RenderState α → List (TriJob α × (ℤ × ℤ)) → ℤ → List α
  | _, [], _ => []
  | st, j :: L, q =>
    if covered j.1 j.2 ∧ pixIdx width j.2 = q ∧
        ((pixZ j.1 j.2 : α) : WithTop α) < st.depth (pixIdx width j.2) then
      pixZ j.1 j.2 ::
        acceptedAt width fragShader uniforms (applyJob width fragShader uniforms st j) L q
    else acceptedAt width fragShader uniforms (applyJob width fragShader uniforms st j) L q

/-- A concrete covered pixel job used to exercise the depth-overwrite
condition: the screen triangle (0,0), (2,0), (0,2) at depth 5, probed at
pixel (0, 0). -/
def witJob : TriJob ℚ × (ℤ × ℤ) :=
  (⟨⟨0, 0, 5⟩, ⟨2, 0, 5⟩, ⟨0, 2, 5⟩,
    ⟨⟨0, 0, 0, 1⟩, []⟩, ⟨⟨0, 0, 0, 1⟩, []⟩, ⟨⟨0, 0, 0, 1⟩, []⟩⟩, (0, 0))

/-- The spec wording of the framebuffer write: clamp the returned intensity
to [0, 15], then truncate to an integer (truncation and floor agree on the
clamped, nonnegative range). -/
def clampColorSpec (c : α) : ℤ :=
  ⌊max 0 (min 15 c)⌋

/-- Membership of the pixel in the triangle of the three screen points, as
geometry states it: the pixel is a nonnegative affine combination of the
three points (boundary included). -/
def InsideTri (x y : ℚ) (p0 p1 p2 : ScreenPt ℚ) : Prop :=
  ∃ a b c : ℚ, 0 ≤ a ∧ 0 ≤ b ∧ 0 ≤ c ∧ a + b + c = 1 ∧
    x = a * p0.x + b * p1.x + c * p2.x ∧ y = a * p0.y + b * p1.y + c * p2.y

/-- C9: multiply(identity(), M) equals M and multiply(M, identity()) equals M,
componentwise over all sixteen entries. -/
theorem C9_identity_multiply (M : Mat4 ℚ) :
    Mat4.multiply Mat4.identity M = M ∧ Mat4.multiply M Mat4.identity = M := by
  constructor <;>
    · ext i j
      simp [Mat4.multiply, Mat4.identity, ite_mul, mul_ite, Finset.sum_ite_eq,
        Finset.sum_ite_eq']

/-- C6: for every fragment-shader return value, the value written into the
framebuffer, max(0, min(15, floor(c))), equals the spec's clamp-then-truncate
floor(max(0, min(15, c))), and is an integer in [0, 15]; no value is
rejected. -/
theorem C6_clamp_truncate (c : ℚ) :
    clampColor c = clampColorSpec c ∧ 0 ≤ clampColor c ∧ clampColor c ≤ 15 := by
  have hfloor15 : (⌊(15 : ℚ)⌋ : ℤ) = 15 := by norm_num
  have hfloor0 : (⌊(0 : ℚ)⌋ : ℤ) = 0 := by norm_num
  have hmin : ⌊min (15 : ℚ) c⌋ = min (15 : ℤ) ⌊c⌋ := by
    rcases le_total (15 : ℚ) c with h | h
    · rw [min_eq_left h, min_eq_left (Int.le_floor.mpr (by exact_mod_cast h)), hfloor15]
    · rw [min_eq_right h,
        min_eq_right (by simpa using Int.floor_le_floor (α := ℚ) h)]
  have hmax : ⌊max (0 : ℚ) (min 15 c)⌋ = max (0 : ℤ) ⌊min (15 : ℚ) c⌋ := by
    rcases le_total (min (15 : ℚ) c) 0 with h | h
    · rw [max_eq_left h, max_eq_left (by simpa using Int.floor_le_floor (α := ℚ) h),
        hfloor0]
    · rw [max_eq_right h, max_eq_right (Int.le_floor.mpr (by exact_mod_cast h))]
  refine ⟨?_, le_max_left _ _, ?_⟩
  · unfold clampColor clampColorSpec
    rw [hmax, hmin]
  · unfold clampColor
    have : min (15 : ℤ) ⌊c⌋ ≤ 15 := min_le_left _ _
    omega

/-- C2 counterexample: the claim asserts the near-zero-w guard returns the
components unchanged (w treated as 1) in both implementations, but the
optimized toScreen short-circuits to the screen point [0, 0, 0]: at clip
position (1, 0, 5, 0) it returns [0, 0, 0], while the components-unchanged
reading would land at screen point (160, 60, 5). -/
theorem C2_counterexample :
    Opt.toScreen 160 120 ([1, 0, 5, 0] : List ℚ) = [0, 0, 0] ∧
    toScreen 160 120 (⟨1, 0, 5⟩ : Vec3 ℚ) = ⟨160, 60, 5⟩ ∧
    Opt.toScreen 160 120 ([1, 0, 5, 0] : List ℚ) ≠ [160, 60, 5] := by
  refine ⟨by norm_num [Opt.toScreen], ?_, by norm_num [Opt.toScreen]⟩
  unfold toScreen
  norm_num

/-- C2 amended: the class-based perspectiveDivide returns (v.x, v.y, v.z)
unchanged when |v.w| < 1e-4 and (v.x/v.w, v.y/v.w, v.z/v.w) otherwise, and
never raises; the optimized renderer's fused toScreen agrees with
divide-then-viewport when |v.w| >= 1e-4, but on |v.w| < 1e-4 it instead
short-circuits to the screen point [0, 0, 0]. -/
theorem C2_perspective_divide_amended (v : Vec4 ℚ) :
    (|v.w| < 1 / 10000 → perspectiveDivide v = ⟨v.x, v.y, v.z⟩)
    ∧ (1 / 10000 ≤ |v.w| →
        perspectiveDivide v = ⟨v.x / v.w, v.y / v.w, v.z / v.w⟩)
    ∧ (∀ width height : ℤ, |v.w| < 1 / 10000 →
        Opt.toScreen width height [v.x, v.y, v.z, v.w] = [0, 0, 0])
    ∧ (∀ width height : ℤ, 1 / 10000 ≤ |v.w| →
        Opt.toScreen width height [v.x, v.y, v.z, v.w] =
          [(toScreen width height (perspectiveDivide v)).x,
           (toScreen width height (perspectiveDivide v)).y,
           (toScreen width height (perspectiveDivide v)).z]) := by
  refine ⟨fun h => by rw [perspectiveDivide, if_pos h],
    fun h => by rw [perspectiveDivide, if_neg (not_lt.mpr h)],
    fun width height h => by
      simp only [Opt.toScreen, List.getD, List.get?, Option.getD_some]
      rw [if_pos h],
    fun width height h => ?_⟩
  rw [perspectiveDivide, if_neg (not_lt.mpr h)]
  simp only [Opt.toScreen, List.getD, List.get?, Option.getD_some]
  rw [if_neg (not_lt.mpr (by simpa using h))]
  simp only [toScreen]

/-- C2 witness: the amended theorem evaluated at clip positions with a
regular w and with w = 0. -/
theorem C2_witness :
    perspectiveDivide (⟨2, 4, 6, 2⟩ : Vec4 ℚ) = ⟨1, 2, 3⟩ ∧
    perspectiveDivide (⟨2, 4, 6, 0⟩ : Vec4 ℚ) = ⟨2, 4, 6⟩ := by
  constructor
  · rw [(C2_perspective_divide_amended ⟨2, 4, 6, 2⟩).2.1 (by norm_num)]
    norm_num
  · exact (C2_perspective_divide_amended ⟨2, 4, 6, 0⟩).1 (by norm_num)

/-- C3 counterexample: the claimed range [0, width) fails on the closed NDC
interval: at ndc.x = 1 the viewport map gives pixel x = width itself, and at
ndc.y = -1 it gives pixel y = height. -/
theorem C3_counterexample :
    (toScreen 160 120 (⟨1, -1, 5⟩ : Vec3 ℚ)).x = 160 ∧
    ¬ (toScreen 160 120 (⟨1, -1, 5⟩ : Vec3 ℚ)).x < 160 ∧
    (toScreen 160 120 (⟨1, -1, 5⟩ : Vec3 ℚ)).y = 120 ∧
    ¬ (toScreen 160 120 (⟨1, -1, 5⟩ : Vec3 ℚ)).y < 120 := by
  unfold toScreen
  norm_num

/-- C3 amended: for positive width and height, the viewport transform maps
ndc.x in the half-open [-1, 1) to a pixel x in [0, width) via
floor((x+1)*0.5*width) and sends ndc.x = 1 to width itself; it maps ndc.y in
(-1, 1] to a pixel y in [0, height) via floor((1-y)*0.5*height) and sends
ndc.y = -1 to height itself; ndc.z passes through unchanged as the
depth-test key. -/
theorem C3_viewport_amended (width height : ℤ) (ndc : Vec3 ℚ)
    (hw : 0 < width) (hh : 0 < height) :
    ((-1 ≤ ndc.x → ndc.x < 1 →
        0 ≤ (toScreen width height ndc).x ∧ (toScreen width height ndc).x < (width : ℚ))
    ∧ (ndc.x = 1 → (toScreen width height ndc).x = (width : ℚ))
    ∧ (-1 < ndc.y → ndc.y ≤ 1 →
        0 ≤ (toScreen width height ndc).y ∧ (toScreen width height ndc).y < (height : ℚ))
    ∧ (ndc.y = -1 → (toScreen width height ndc).y = (height : ℚ))
    ∧ (toScreen width height ndc).z = ndc.z) := by
  have hwq : (0 : ℚ) < (width : ℚ) := by exact_mod_cast hw
  have hhq : (0 : ℚ) < (height : ℚ) := by exact_mod_cast hh
  refine ⟨fun h1 h2 => ?_, fun h1 => ?_, fun h1 h2 => ?_, fun h1 => ?_, rfl⟩
  · have hlo : (0 : ℤ) ≤ ⌊(ndc.x + 1) * (1 / 2) * (width : ℚ)⌋ := by
      apply Int.le_floor.mpr
      have : (0 : ℚ) ≤ (ndc.x + 1) * (1 / 2) * (width : ℚ) := by nlinarith
      exact_mod_cast this
    have hhi : ⌊(ndc.x + 1) * (1 / 2) * (width : ℚ)⌋ < width := by
      apply Int.floor_lt.mpr
      have : (ndc.x + 1) * (1 / 2) * (width : ℚ) < (width : ℚ) := by nlinarith
      exact_mod_cast this
    simp only [toScreen]
    exact ⟨by exact_mod_cast hlo, by exact_mod_cast hhi⟩
  · simp only [toScreen, h1]
    rw [show ((1 : ℚ) + 1) * (1 / 2) * (width : ℚ) = ((width : ℤ) : ℚ) by norm_num,
      Int.floor_intCast]
  · have hlo : (0 : ℤ) ≤ ⌊(1 - ndc.y) * (1 / 2) * (height : ℚ)⌋ := by
      apply Int.le_floor.mpr
      have : (0 : ℚ) ≤ (1 - ndc.y) * (1 / 2) * (height : ℚ) := by nlinarith
      exact_mod_cast this
    have hhi : ⌊(1 - ndc.y) * (1 / 2) * (height : ℚ)⌋ < height := by
      apply Int.floor_lt.mpr
      have : (1 - ndc.y) * (1 / 2) * (height : ℚ) < (height : ℚ) := by nlinarith
      exact_mod_cast this
    simp only [toScreen]
    exact ⟨by exact_mod_cast hlo, by exact_mod_cast hhi⟩
  · simp only [toScreen, h1]
    rw [show ((1 : ℚ) - -1) * (1 / 2) * (height : ℚ) = ((height : ℤ) : ℚ) by norm_num,
      Int.floor_intCast]

/-- C3 witness: the amended theorem evaluated at the 160x120 screen for an
interior NDC point. -/
theorem C3_witness :
    0 ≤ (toScreen 160 120 (⟨0, 0, 7⟩ : Vec3 ℚ)).x ∧
    (toScreen 160 120 (⟨0, 0, 7⟩ : Vec3 ℚ)).x < (160 : ℚ) :=
  (C3_viewport_amended 160 120 ⟨0, 0, 7⟩ (by norm_num) (by norm_num)).1
    (by norm_num) (by norm_num)

/-- C4: whenever the signed double area of the three screen points is at
least 1e-3 in absolute value, the barycentric weights sum to exactly 1; a
pixel inside the triangle (a nonnegative affine combination of its corners)
gets three nonnegative weights, and a pixel outside gets at least one
negative weight. -/
theorem C4_barycentric_weights (x y : ℚ) (p0 p1 p2 : ScreenPt ℚ)
    (hd : 1 / 1000 ≤
      |(p1.x - p0.x) * (p2.y - p0.y) - (p2.x - p0.x) * (p1.y - p0.y)|) :
    ((barycentric x y p0 p1 p2).u + (barycentric x y p0 p1 p2).v +
        (barycentric x y p0 p1 p2).w = 1)
    ∧ (InsideTri x y p0 p1 p2 →
        0 ≤ (barycentric x y p0 p1 p2).u ∧ 0 ≤ (barycentric x y p0 p1 p2).v ∧
          0 ≤ (barycentric x y p0 p1 p2).w)
    ∧ (¬ InsideTri x y p0 p1 p2 →
        (barycentric x y p0 p1 p2).u < 0 ∨ (barycentric x y p0 p1 p2).v < 0 ∨
          (barycentric x y p0 p1 p2).w < 0) := by
  have hne : (p1.x - p0.x) * (p2.y - p0.y) - (p2.x - p0.x) * (p1.y - p0.y) ≠ 0 := by
    intro h
    rw [h] at hd
    simp at hd
    linarith
  have hb : barycentric x y p0 p1 p2 =
      ⟨1 - ((x - p0.x) * (p2.y - p0.y) - (p2.x - p0.x) * (y - p0.y)) /
            ((p1.x - p0.x) * (p2.y - p0.y) - (p2.x - p0.x) * (p1.y - p0.y))
          - ((p1.x - p0.x) * (y - p0.y) - (x - p0.x) * (p1.y - p0.y)) /
            ((p1.x - p0.x) * (p2.y - p0.y) - (p2.x - p0.x) * (p1.y - p0.y)),
        ((x - p0.x) * (p2.y - p0.y) - (p2.x - p0.x) * (y - p0.y)) /
          ((p1.x - p0.x) * (p2.y - p0.y) - (p2.x - p0.x) * (p1.y - p0.y)),
        ((p1.x - p0.x) * (y - p0.y) - (x - p0.x) * (p1.y - p0.y)) /
          ((p1.x - p0.x) * (p2.y - p0.y) - (p2.x - p0.x) * (p1.y - p0.y))⟩ := by
    unfold barycentric
    rw [if_neg (not_lt.mpr hd)]
  rw [hb]
  refine ⟨by ring, fun hin => ?_, fun hout => ?_⟩
  · obtain ⟨a, b, c, ha, hbb, hc, habc, hx, hy⟩ := hin
    have ha' : a = 1 - b - c := by linarith
    subst ha'
    subst hx
    subst hy
    have hV : (((1 - b - c) * p0.x + b * p1.x + c * p2.x - p0.x) * (p2.y - p0.y) -
        (p2.x - p0.x) * ((1 - b - c) * p0.y + b * p1.y + c * p2.y - p0.y)) /
          ((p1.x - p0.x) * (p2.y - p0.y) - (p2.x - p0.x) * (p1.y - p0.y)) = b := by
      field_simp
      ring
    have hW : ((p1.x - p0.x) * ((1 - b - c) * p0.y + b * p1.y + c * p2.y - p0.y) -
        ((1 - b - c) * p0.x + b * p1.x + c * p2.x - p0.x) * (p1.y - p0.y)) /
          ((p1.x - p0.x) * (p2.y - p0.y) - (p2.x - p0.x) * (p1.y - p0.y)) = c := by
      field_simp
      ring
    refine ⟨?_, ?_, ?_⟩ <;> simp only [hV, hW] <;> linarith
  · by_contra hall
    push_neg at hall
    obtain ⟨hu, hv, hw⟩ := hall
    exact hout ⟨_, _, _, hu, hv, hw, by ring, by field_simp; ring, by field_simp; ring⟩

/-- C4 witness: the weight-sum component evaluated at the pixel (1, 1)
against the screen triangle (0,0), (4,0), (0,4), whose double area is 16. -/
theorem C4_witness :
    (barycentric 1 1 (⟨0, 0, 0⟩ : ScreenPt ℚ) ⟨4, 0, 0⟩ ⟨0, 4, 0⟩).u +
      (barycentric 1 1 (⟨0, 0, 0⟩ : ScreenPt ℚ) ⟨4, 0, 0⟩ ⟨0, 4, 0⟩).v +
      (barycentric 1 1 (⟨0, 0, 0⟩ : ScreenPt ℚ) ⟨4, 0, 0⟩ ⟨0, 4, 0⟩).w = 1 :=
  (C4_barycentric_weights 1 1 ⟨0, 0, 0⟩ ⟨4, 0, 0⟩ ⟨0, 4, 0⟩ (by norm_num)).1

/-- C8: with a nonzero tangent of half the field of view, a nonzero aspect
being irrelevant to the z and w rows, and 0 < near < far, the perspective
matrix maps (0, 0, -near, 1) to NDC z = -1 after the divide by w and maps
(0, 0, -far, 1) to NDC z = +1, so after the divide smaller NDC z is
nearer. -/
theorem C8_perspective_near_far (fov aspect near far : ℝ)
    (_htan : Real.tan (fov / 2) ≠ 0) (h0 : 0 < near) (hnf : near < far) :
    (Mat4.multiplyVec4 (Mat4.perspective fov aspect near far) ⟨0, 0, -near, 1⟩).z /
      (Mat4.multiplyVec4 (Mat4.perspective fov aspect near far) ⟨0, 0, -near, 1⟩).w = -1 ∧
    (Mat4.multiplyVec4 (Mat4.perspective fov aspect near far) ⟨0, 0, -far, 1⟩).z /
      (Mat4.multiplyVec4 (Mat4.perspective fov aspect near far) ⟨0, 0, -far, 1⟩).w = 1 := by
  have hne : near - far ≠ 0 := sub_ne_zero_of_ne (ne_of_lt hnf)
  have hnz : near ≠ 0 := ne_of_gt h0
  have hfz : far ≠ 0 := ne_of_gt (lt_trans h0 hnf)
  constructor <;>
    · simp only [Mat4.perspective, Mat4.perspectiveF, Mat4.multiplyVec4,
        Matrix.cons_val_zero, Matrix.cons_val_one, Matrix.head_cons,
        Matrix.cons_val_two, Matrix.cons_val_three, Matrix.tail_cons]
      field_simp
      ring

/-! ## Fold lemmas for the rasterization state -/

/-- Congruence for left folds whose step functions agree on the members of
the list. -/
theorem foldl_congr_mem {β γ : Type} (f g : γ → β → γ) (l : List β)
    (h : ∀ s x, x ∈ l → f s x = g s x) : ∀ s, l.foldl f s = l.foldl g s := by
  induction l with
  | nil => intro s; rfl
  | cons a l ih =>
    intro s
    simp only [List.foldl_cons]
    rw [h s a (List.mem_cons_self a l)]
    exact ih (fun s x hx => h s x (List.mem_cons_of_mem a hx)) _

/-- A left fold whose step fixes the state is the identity. -/
theorem foldl_fixed_of_step {β γ : Type} (f : γ → β → γ) (s : γ) (l : List β)
    (h : ∀ x, f s x = s) : l.foldl f s = s := by
  induction l with
  | nil => rfl
  | cons a l ih =>
    rw [List.foldl_cons, h a]
    exact ih

/-- A render call is the left fold of the per-pixel body over the flat job
list: vertex shading does not read the render state. -/
theorem render_eq_foldl (width height : ℤ)
    (geom : Geometry α) (vertShader : VertexAttributes α → υ → VertexOutput α)
    (fragShader : VertexOutput α → υ → α) (uniforms : υ) (st : RenderState α) :
    render width height geom vertShader fragShader uniforms st =
      (renderJobs width height geom vertShader uniforms).foldl
        (applyJob width fragShader uniforms) st := by
  unfold render renderJobs
  generalize triples geom.indices = ts
  induction ts generalizing st with
  | nil => rfl
  | cons t ts ih =>
    simp only [List.foldl_cons, List.flatMap_cons, List.foldl_append]
    rw [← ih]
    congr 1
    unfold rasterizeTriangle
    rw [List.foldl_map]
    rfl

/-- One pixel job never increases any depth cell. -/
theorem applyJob_depth_le (width : ℤ) (fragShader : VertexOutput α → υ → α)
    (uniforms : υ) (st : RenderState α) (j : TriJob α × (ℤ × ℤ)) (q : ℤ) :
    (applyJob width fragShader uniforms st j).depth q ≤ st.depth q := by
  unfold applyJob rasterPixel
  split
  · split
    · next hlt =>
      simp only
      split
      · next hq => rw [hq]; exact le_of_lt hlt
      · exact le_refl _
    · exact le_refl _
  · exact le_refl _

/-- A run of pixel jobs never increases any depth cell. -/
theorem foldl_applyJob_depth_le (width : ℤ) (fragShader : VertexOutput α → υ → α)
    (uniforms : υ) (L : List (TriJob α × (ℤ × ℤ))) :
    ∀ (st : RenderState α) (q : ℤ),
      (L.foldl (applyJob width fragShader uniforms) st).depth q ≤ st.depth q := by
  induction L with
  | nil => intro st q; exact le_refl _
  | cons j L ih =>
    intro st q
    rw [List.foldl_cons]
    exact le_trans (ih _ q) (applyJob_depth_le width fragShader uniforms st j q)

/-- After a run containing a covered job, the depth cell the job aimed at
is at most the job's interpolated depth. -/
theorem foldl_applyJob_depth_le_z (width : ℤ) (fragShader : VertexOutput α → υ → α)
    (uniforms : υ) (L : List (TriJob α × (ℤ × ℤ))) (j : TriJob α × (ℤ × ℤ))
    (hj : j ∈ L) (hcov : covered j.1 j.2) :
    ∀ st : RenderState α,
      (L.foldl (applyJob width fragShader uniforms) st).depth (pixIdx width j.2) ≤
        ((pixZ j.1 j.2 : α) : WithTop α) := by
  induction L with
  | nil => cases hj
  | cons a L ih =>
    intro st
    rw [List.foldl_cons]
    rcases List.mem_cons.mp hj with rfl | hmem
    · refine le_trans (foldl_applyJob_depth_le width fragShader uniforms L _ _) ?_
      unfold applyJob rasterPixel
      rw [if_pos hcov]
      split
      · simp
      · next hlt => exact le_of_not_lt hlt
    · exact ih hmem _

/-- A run of pixel jobs in which every covered job fails the depth test
against the starting state leaves the state untouched. -/
theorem foldl_applyJob_fixed (width : ℤ) (fragShader : VertexOutput α → υ → α)
    (uniforms : υ) (L : List (TriJob α × (ℤ × ℤ))) (st : RenderState α)
    (h : ∀ j ∈ L, covered j.1 j.2 →
      ¬ ((pixZ j.1 j.2 : α) : WithTop α) < st.depth (pixIdx width j.2)) :
    L.foldl (applyJob width fragShader uniforms) st = st := by
  induction L with
  | nil => rfl
  | cons a L ih =>
    have ha : applyJob width fragShader uniforms st a = st := by
      unfold applyJob rasterPixel
      split
      · next hcov => rw [if_neg (h a (List.mem_cons_self a L) hcov)]
      · rfl
    rw [List.foldl_cons, ha]
    exact ih (fun j hj => h j (List.mem_cons_of_mem a hj))

/-- When the pixel job is covered and passes the depth test, exactly the
aimed cell is overwritten with the interpolated depth. -/
theorem applyJob_depth_pass (width : ℤ) (fragShader : VertexOutput α → υ → α)
    (uniforms : υ) (st : RenderState α) (j : TriJob α × (ℤ × ℤ))
    (hcov : covered j.1 j.2)
    (hlt : ((pixZ j.1 j.2 : α) : WithTop α) < st.depth (pixIdx width j.2)) (q : ℤ) :
    (applyJob width fragShader uniforms st j).depth q =
      if q = pixIdx width j.2 then ((pixZ j.1 j.2 : α) : WithTop α) else st.depth q := by
  unfold applyJob rasterPixel
  rw [if_pos hcov, if_pos hlt]

/-- When the pixel job is uncovered or fails the depth test, the state is
returned unchanged. -/
theorem applyJob_no_write (width : ℤ) (fragShader : VertexOutput α → υ → α)
    (uniforms : υ) (st : RenderState α) (j : TriJob α × (ℤ × ℤ))
    (h : ¬ (covered j.1 j.2 ∧
      ((pixZ j.1 j.2 : α) : WithTop α) < st.depth (pixIdx width j.2))) :
    applyJob width fragShader uniforms st j = st := by
  unfold applyJob rasterPixel
  by_cases hcov : covered j.1 j.2
  · rw [if_pos hcov, if_neg (fun hlt => h ⟨hcov, hlt⟩)]
  · rw [if_neg hcov]

/-- Unfolding equation of listMinW on a cons cell. -/
theorem listMinW_cons (a : α) (l : List α) :
    listMinW (a :: l) = min (a : WithTop α) (listMinW l) := rfl

/-- The depth cell after a run of pixel jobs is the minimum of its starting
value and the accepted depths aimed at it. -/
theorem foldl_applyJob_depth_eq (width : ℤ) (fragShader : VertexOutput α → υ → α)
    (uniforms : υ) (L : List (TriJob α × (ℤ × ℤ))) :
    ∀ (st : RenderState α) (q : ℤ),
      (L.foldl (applyJob width fragShader uniforms) st).depth q =
        min (st.depth q) (listMinW (acceptedAt width fragShader uniforms st L q)) := by
  induction L with
  | nil =>
    intro st q
    rw [show acceptedAt width fragShader uniforms st ([] : List (TriJob α × (ℤ × ℤ))) q =
        ([] : List α) from rfl,
      show listMinW ([] : List α) = ⊤ from rfl]
    exact (min_eq_left le_top).symm
  | cons j L ih =>
    intro st q
    rw [List.foldl_cons]
    unfold acceptedAt
    split
    · next hc =>
      obtain ⟨hcov, hidx, hlt⟩ := hc
      subst hidx
      rw [ih, listMinW_cons]
      have hd : (applyJob width fragShader uniforms st j).depth (pixIdx width j.2) =
          ((pixZ j.1 j.2 : α) : WithTop α) := by
        rw [applyJob_depth_pass width fragShader uniforms st j hcov hlt, if_pos rfl]
      rw [hd]
      exact (min_eq_right (le_trans (min_le_left _ _) (le_of_lt hlt))).symm
    · next hc =>
      rw [ih]
      have hd : (applyJob width fragShader uniforms st j).depth q = st.depth q := by
        by_cases hcov : covered j.1 j.2
        · by_cases hlt : ((pixZ j.1 j.2 : α) : WithTop α) < st.depth (pixIdx width j.2)
          · rw [applyJob_depth_pass width fragShader uniforms st j hcov hlt, if_neg]
            intro hq
            exact hc ⟨hcov, hq.symm, hlt⟩
          · rw [applyJob_no_write width fragShader uniforms st j (fun hh => hlt hh.2)]
        · rw [applyJob_no_write width fragShader uniforms st j (fun hh => hcov hh.1)]
      rw [hd]

/-- A depth cell changes under one pixel job only by a covered job aimed at
it whose interpolated depth is strictly below the stored value, and the new
value is that interpolated depth. -/
theorem applyJob_depth_change (width : ℤ) (fragShader : VertexOutput α → υ → α)
    (uniforms : υ) (st : RenderState α) (j : TriJob α × (ℤ × ℤ)) (q : ℤ)
    (h : (applyJob width fragShader uniforms st j).depth q ≠ st.depth q) :
    covered j.1 j.2 ∧ q = pixIdx width j.2 ∧
      ((pixZ j.1 j.2 : α) : WithTop α) < st.depth q ∧
      (applyJob width fragShader uniforms st j).depth q =
        ((pixZ j.1 j.2 : α) : WithTop α) := by
  by_cases hcov : covered j.1 j.2
  · by_cases hlt : ((pixZ j.1 j.2 : α) : WithTop α) < st.depth (pixIdx width j.2)
    · have hp := applyJob_depth_pass width fragShader uniforms st j hcov hlt q
      by_cases hq : q = pixIdx width j.2
      · rw [hp, if_pos hq]
        exact ⟨hcov, hq, by rw [hq]; exact hlt, rfl⟩
      · rw [hp, if_neg hq] at h
        exact absurd rfl h
    · rw [applyJob_no_write width fragShader uniforms st j (fun hh => hlt hh.2)] at h
      exact absurd rfl h
  · rw [applyJob_no_write width fragShader uniforms st j (fun hh => hcov hh.1)] at h
    exact absurd rfl h

/-- C1: with one cleared buffer, rendering the same geometry with the same
pure shaders and uniforms twice leaves the whole renderer state (framebuffer
and depth buffer) identical to rendering it once: every covered pixel of the
second pass interpolates a depth no smaller than the stored minimum, and
equal depth fails the strict test, so the second pass writes nothing. -/
theorem C1_depth_test_idempotent {υ : Type} (width height : ℤ) (geom : Geometry ℚ)
    (vertShader : VertexAttributes ℚ → υ → VertexOutput ℚ)
    (fragShader : VertexOutput ℚ → υ → ℚ) (uniforms : υ) :
    render width height geom vertShader fragShader uniforms
        (render width height geom vertShader fragShader uniforms RenderState.cleared) =
      render width height geom vertShader fragShader uniforms RenderState.cleared := by
  rw [render_eq_foldl width height geom vertShader fragShader uniforms
    (render width height geom vertShader fragShader uniforms RenderState.cleared),
    render_eq_foldl width height geom vertShader fragShader uniforms RenderState.cleared]
  apply foldl_applyJob_fixed
  intro j hj hcov
  apply not_lt.mpr
  rw [← render_eq_foldl]
  rw [render_eq_foldl width height geom vertShader fragShader uniforms RenderState.cleared]
  exact foldl_applyJob_depth_le_z width fragShader uniforms _ j hj hcov _

/-- C5: a triangle whose three screen points have signed double-area of
absolute value below 1e-3 is degenerate: the barycentric solve answers
(-1, -1, -1) at every pixel, so no pixel is covered and rasterizing the
triangle returns the framebuffer and depth buffer unchanged. -/
theorem C5_degenerate_triangle_skipped {υ : Type} (width height : ℤ)
    (fragShader : VertexOutput ℚ → υ → ℚ) (uniforms : υ) (t : TriJob ℚ)
    (st : RenderState ℚ)
    (hdeg : |(t.p1.x - t.p0.x) * (t.p2.y - t.p0.y) -
        (t.p2.x - t.p0.x) * (t.p1.y - t.p0.y)| < 1 / 1000) :
    (∀ x y : ℚ, barycentric x y t.p0 t.p1 t.p2 = ⟨-1, -1, -1⟩) ∧
      rasterizeTriangle width height fragShader uniforms t st = st := by
  have hbar : ∀ x y : ℚ, barycentric x y t.p0 t.p1 t.p2 = ⟨-1, -1, -1⟩ := by
    intro x y
    unfold barycentric
    rw [if_pos hdeg]
  refine ⟨hbar, ?_⟩
  unfold rasterizeTriangle
  apply foldl_fixed_of_step
  intro xy
  unfold rasterPixel
  rw [if_neg]
  intro hcov
  have h1 : (0 : ℚ) ≤ (barycentric (xy.1 : ℚ) (xy.2 : ℚ) t.p0 t.p1 t.p2).u := hcov.1
  rw [hbar] at h1
  norm_num at h1

/-- C5 witness: rasterizing the fully collapsed triangle of witJob over a
cleared 4x4 buffer changes nothing, with a constant fragment shader. -/
theorem C5_witness :
    rasterizeTriangle 4 4 (fun _ _ => (7 : ℚ)) ()
        ⟨⟨0, 0, 0⟩, ⟨0, 0, 0⟩, ⟨0, 0, 0⟩,
         ⟨⟨0, 0, 0, 1⟩, []⟩, ⟨⟨0, 0, 0, 1⟩, []⟩, ⟨⟨0, 0, 0, 1⟩, []⟩⟩
        RenderState.cleared = RenderState.cleared :=
  (C5_degenerate_triangle_skipped 4 4 (fun _ _ => (7 : ℚ)) ()
    ⟨⟨0, 0, 0⟩, ⟨0, 0, 0⟩, ⟨0, 0, 0⟩,
     ⟨⟨0, 0, 0, 1⟩, []⟩, ⟨⟨0, 0, 0, 1⟩, []⟩, ⟨⟨0, 0, 0, 1⟩, []⟩⟩
    RenderState.cleared (by norm_num)).2

/-- C7: the depth-buffer invariant.  After construction and after clear()
every depth cell is Infinity; a pixel job changes a cell only when it is
covered, aimed at that cell, and its interpolated depth is strictly below
the stored value, overwriting with that depth; from a cleared buffer, every
cell after a render call equals the minimum over Infinity and the depths
accepted at it; and a render call never increases any cell. -/
theorem C7_depth_buffer_invariant :
    ((RenderState.cleared : RenderState ℚ).depth = fun _ => (⊤ : WithTop ℚ))
    ∧ (∀ (υ : Type) (width : ℤ) (fragShader : VertexOutput ℚ → υ → ℚ) (uniforms : υ)
        (st : RenderState ℚ) (j : TriJob ℚ × (ℤ × ℤ)) (q : ℤ),
        (applyJob width fragShader uniforms st j).depth q ≠ st.depth q →
          covered j.1 j.2 ∧ q = pixIdx width j.2 ∧
            ((pixZ j.1 j.2 : ℚ) : WithTop ℚ) < st.depth q ∧
            (applyJob width fragShader uniforms st j).depth q =
              ((pixZ j.1 j.2 : ℚ) : WithTop ℚ))
    ∧ (∀ (υ : Type) (width height : ℤ) (geom : Geometry ℚ)
        (vertShader : VertexAttributes ℚ → υ → VertexOutput ℚ)
        (fragShader : VertexOutput ℚ → υ → ℚ) (uniforms : υ) (q : ℤ),
        (render width height geom vertShader fragShader uniforms
            RenderState.cleared).depth q =
          listMinW (acceptedAt width fragShader uniforms RenderState.cleared
            (renderJobs width height geom vertShader uniforms) q))
    ∧ (∀ (υ : Type) (width height : ℤ) (geom : Geometry ℚ)
        (vertShader : VertexAttributes ℚ → υ → VertexOutput ℚ)
        (fragShader : VertexOutput ℚ → υ → ℚ) (uniforms : υ)
        (st : RenderState ℚ) (q : ℤ),
        (render width height geom vertShader fragShader uniforms st).depth q ≤
          st.depth q) := by
  refine ⟨rfl, ?_, ?_, ?_⟩
  · intro υ width fragShader uniforms st j q h
    exact applyJob_depth_change width fragShader uniforms st j q h
  · intro υ width height geom vertShader fragShader uniforms q
    rw [render_eq_foldl, foldl_applyJob_depth_eq]
    exact min_eq_right le_top
  · intro υ width height geom vertShader fragShader uniforms st q
    rw [render_eq_foldl]
    exact foldl_applyJob_depth_le width fragShader uniforms _ st q

/-- C7 witness: the overwrite condition exercised on the concrete covered
job witJob against a cleared buffer: the cell changes, so the job is
covered, aimed at cell 0, its depth 5 beats Infinity, and the new value is
5. -/
theorem C7_witness :
    covered witJob.1 witJob.2 ∧ (0 : ℤ) = pixIdx 8 witJob.2 ∧
      ((pixZ witJob.1 witJob.2 : ℚ) : WithTop ℚ) <
        (RenderState.cleared : RenderState ℚ).depth 0 ∧
      (applyJob 8 (fun _ _ => (0 : ℚ)) () RenderState.cleared witJob).depth 0 =
        ((pixZ witJob.1 witJob.2 : ℚ) : WithTop ℚ) := by
  apply C7_depth_buffer_invariant.2.1 Unit 8 (fun _ _ => (0 : ℚ)) ()
    RenderState.cleared witJob 0
  have hcov : covered witJob.1 witJob.2 := by
    refine ⟨?_, ?_, ?_⟩ <;> norm_num [witJob, covered, pixBary, barycentric]
  have hz : ((pixZ witJob.1 witJob.2 : ℚ) : WithTop ℚ) <
      (RenderState.cleared : RenderState ℚ).depth (pixIdx 8 witJob.2) :=
    WithTop.coe_lt_top _
  rw [applyJob_depth_pass 8 (fun _ _ => (0 : ℚ)) () RenderState.cleared witJob hcov hz 0,
    if_pos (by decide : (0 : ℤ) = pixIdx 8 witJob.2)]
  exact WithTop.coe_ne_top

/-- C8 witness: the theorem evaluated at fov = pi/2, aspect 1, near 1,
far 2. -/
theorem C8_witness :
    (Mat4.multiplyVec4 (Mat4.perspective (Real.pi / 2) 1 1 2) ⟨0, 0, -1, 1⟩).z /
      (Mat4.multiplyVec4 (Mat4.perspective (Real.pi / 2) 1 1 2) ⟨0, 0, -1, 1⟩).w = -1 ∧
    (Mat4.multiplyVec4 (Mat4.perspective (Real.pi / 2) 1 1 2) ⟨0, 0, -2, 1⟩).z /
      (Mat4.multiplyVec4 (Mat4.perspective (Real.pi / 2) 1 1 2) ⟨0, 0, -2, 1⟩).w = 1 := by
  have htan : Real.tan (Real.pi / 2 / 2) ≠ 0 := by
    rw [show Real.pi / 2 / 2 = Real.pi / 4 by ring, Real.tan_pi_div_four]
    norm_num
  simpa using C8_perspective_near_far (Real.pi / 2) 1 1 2 htan (by norm_num) (by norm_num)

/-! ## Equivalence of the two renderers -/

/-- The members of an index triple are members of the index list. -/
theorem triples_mem : ∀ (l : List Nat) (tr : Nat × Nat × Nat), tr ∈ triples l →
    tr.1 ∈ l ∧ tr.2.1 ∈ l ∧ tr.2.2 ∈ l
  | i0 :: i1 :: i2 :: rest, tr, h => by
    rw [show triples (i0 :: i1 :: i2 :: rest) = (i0, i1, i2) :: triples rest from rfl] at h
    rcases List.mem_cons.mp h with rfl | hmem
    · refine ⟨List.mem_cons_self _ _, ?_, ?_⟩
      · exact List.mem_cons_of_mem _ (List.mem_cons_self _ _)
      · exact List.mem_cons_of_mem _ (List.mem_cons_of_mem _ (List.mem_cons_self _ _))
    · obtain ⟨a, b, c⟩ := triples_mem rest tr hmem
      exact ⟨List.mem_cons_of_mem _ (List.mem_cons_of_mem _ (List.mem_cons_of_mem _ a)),
        List.mem_cons_of_mem _ (List.mem_cons_of_mem _ (List.mem_cons_of_mem _ b)),
        List.mem_cons_of_mem _ (List.mem_cons_of_mem _ (List.mem_cons_of_mem _ c))⟩
  | [], _, h => by rw [show triples ([] : List Nat) = [] from rfl] at h; cases h
  | [_], _, h => by rw [show triples [_] = [] from rfl] at h; cases h
  | [_, _], _, h => by rw [show triples [_, _] = [] from rfl] at h; cases h

/-- The optimized bary on the coordinate arrays computes the same triple as
the class-based barycentric. -/
theorem opt_bary_eq (x y : ℚ) (p0 p1 p2 : ScreenPt ℚ) :
    Opt.bary x y [p0.x, p0.y, p0.z] [p1.x, p1.y, p1.z] [p2.x, p2.y, p2.z] =
      [(barycentric x y p0 p1 p2).u, (barycentric x y p0 p1 p2).v,
       (barycentric x y p0 p1 p2).w] := by
  simp only [Opt.bary, barycentric, List.getD, List.get?, Option.getD_some]
  by_cases hc : |(p1.x - p0.x) * (p2.y - p0.y) - (p2.x - p0.x) * (p1.y - p0.y)| < 1 / 1000
  · rw [if_pos hc, if_pos hc]
  · rw [if_neg hc, if_neg hc]

/-- On a vertex-shader output with |w| >= 1e-4, the optimized fused
toScreen equals the class-based perspective divide followed by the
class-based viewport map. -/
theorem opt_toScreen_eq (width height : ℤ) (p : Vec4 ℚ) (a b c : ℚ)
    (h : 1 / 10000 ≤ |p.w|) :
    Opt.toScreen width height [p.x, p.y, p.z, p.w, a, b, c] =
      [(toScreen width height (perspectiveDivide p)).x,
       (toScreen width height (perspectiveDivide p)).y,
       (toScreen width height (perspectiveDivide p)).z] := by
  simp only [Opt.toScreen, List.getD, List.get?, Option.getD_some]
  rw [if_neg (not_lt.mpr h), perspectiveDivide, if_neg (not_lt.mpr h)]
  simp only [toScreen]

/-- When the three vertex outputs carry exactly the one Vec3 varying named
normal, interpolateVarying produces the reset position (0,0,0,1) and the
componentwise blend of the three normals under that name. -/
theorem interp_normal_eq (v0 v1 v2 : VertexOutput ℚ) (n0 n1 n2 : Vec3 ℚ) (b : Bary ℚ)
    (h0 : v0.varying = [("normal", VaryVal.vec n0)])
    (h1 : v1.varying = [("normal", VaryVal.vec n1)])
    (h2 : v2.varying = [("normal", VaryVal.vec n2)]) :
    interpolateVarying v0 v1 v2 b =
      ⟨⟨0, 0, 0, 1⟩, [("normal", VaryVal.vec
        ⟨n0.x * b.u + n1.x * b.v + n2.x * b.w,
         n0.y * b.u + n1.y * b.v + n2.y * b.w,
         n0.z * b.u + n1.z * b.v + n2.z * b.w⟩)]⟩ := by
  unfold interpolateVarying
  rw [h0, h1, h2]
  simp [List.lookup, blendVal]

/-- Under the varying-shape and fragment-shader correspondence, the
optimized tri on the coordinate arrays of the class-based screen points
equals the class-based rasterizeTriangle, from every state. -/
theorem opt_tri_eq_rasterize {M M' : Type} (width height : ℤ)
    (fsC : VertexOutput ℚ → M → ℚ) (uC : M) (fsO : Vec3 ℚ → M' → ℚ) (uO : M')
    (t : TriJob ℚ) (n0 n1 n2 : Vec3 ℚ)
    (h0 : t.v0.varying = [("normal", VaryVal.vec n0)])
    (h1 : t.v1.varying = [("normal", VaryVal.vec n1)])
    (h2 : t.v2.varying = [("normal", VaryVal.vec n2)])
    (hfrag : ∀ nv : Vec3 ℚ,
      fsC ⟨⟨0, 0, 0, 1⟩, [("normal", VaryVal.vec nv)]⟩ uC = fsO nv uO)
    (st : RenderState ℚ) :
    Opt.tri width height fsO uO [t.p0.x, t.p0.y, t.p0.z] [t.p1.x, t.p1.y, t.p1.z]
        [t.p2.x, t.p2.y, t.p2.z] n0 n1 n2 st =
      rasterizeTriangle width height fsC uC t st := by
  unfold Opt.tri rasterizeTriangle
  have hpix : Opt.triPixels width height [t.p0.x, t.p0.y, t.p0.z]
      [t.p1.x, t.p1.y, t.p1.z] [t.p2.x, t.p2.y, t.p2.z] = triPixels width height t := by
    simp only [Opt.triPixels, triPixels, List.getD, List.get?, Option.getD_some]
  rw [hpix]
  apply foldl_congr_mem
  intro s xy _
  unfold Opt.triStep rasterPixel
  rw [opt_bary_eq (xy.1 : ℚ) (xy.2 : ℚ) t.p0 t.p1 t.p2]
  simp only [List.getD, List.get?, Option.getD_some]
  rw [interp_normal_eq t.v0 t.v1 t.v2 n0 n1 n2 (pixBary t xy) h0 h1 h2, hfrag]

/-- Corresponding draw calls map every starting state to the same state. -/
theorem render_corr {M M' : Type} (width height : ℤ)
    (dc : DrawCallC M) (dop : DrawCallO M') (h : Corr dc dop) (st : RenderState ℚ) :
    Opt.render width height dop.geo dop.vs dop.fs dop.u st =
      render width height dc.geom dc.vs dc.fs dc.u st := by
  obtain ⟨hidx, hvert, hfrag⟩ := h
  unfold Opt.render render
  rw [← hidx]
  apply foldl_congr_mem
  intro s tr htr
  obtain ⟨m0, m1, m2⟩ := triples_mem dc.geom.indices tr htr
  obtain ⟨p0, n0, he0, hw0, ho0⟩ := hvert tr.1 m0
  obtain ⟨p1, n1, he1, hw1, ho1⟩ := hvert tr.2.1 m1
  obtain ⟨p2, n2, he2, hw2, ho2⟩ := hvert tr.2.2 m2
  simp only [ho0, ho1, ho2]
  simp only [List.getD, List.get?, Option.getD_some]
  rw [opt_toScreen_eq width height p0 n0.x n0.y n0.z hw0,
    opt_toScreen_eq width height p1 n1.x n1.y n1.z hw1,
    opt_toScreen_eq width height p2 n2.x n2.y n2.z hw2]
  have hsh : shadeTri dc.geom dc.vs dc.u width height tr =
      ⟨toScreen width height (perspectiveDivide p0),
       toScreen width height (perspectiveDivide p1),
       toScreen width height (perspectiveDivide p2),
       ⟨p0, [("normal", VaryVal.vec n0)]⟩,
       ⟨p1, [("normal", VaryVal.vec n1)]⟩,
       ⟨p2, [("normal", VaryVal.vec n2)]⟩⟩ := by
    unfold shadeTri
    rw [he0, he1, he2]
  rw [hsh]
  exact opt_tri_eq_rasterize width height dc.fs dc.u dop.fs dop.u
    ⟨toScreen width height (perspectiveDivide p0),
     toScreen width height (perspectiveDivide p1),
     toScreen width height (perspectiveDivide p2),
     ⟨p0, [("normal", VaryVal.vec n0)]⟩,
     ⟨p1, [("normal", VaryVal.vec n1)]⟩,
     ⟨p2, [("normal", VaryVal.vec n2)]⟩⟩ n0 n1 n2
    rfl rfl rfl hfrag s

/-- C10: the class-based and the array-based renderers are equivalent.  For
the same width and height, a clear() followed by any sequence of pairwise
corresponding render calls (same index lists, vertex-shader outputs of
shape clip position with |w| >= 1e-4 plus one Vec3 normal varying matching
the optimized seven-component output, and agreeing fragment shaders)
produces identical framebuffer contents and identical depth-buffer
contents in both implementations. -/
theorem C10_renderer_equivalence {M M' : Type} (width height : ℤ)
    (LC : List (DrawCallC M)) (LO : List (DrawCallO M'))
    (h : List.Forall₂ Corr LC LO) :
    LC.foldl (runC width height) RenderState.cleared =
      LO.foldl (runO width height) RenderState.cleared := by
  suffices h' : ∀ st : RenderState ℚ,
      LC.foldl (runC width height) st = LO.foldl (runO width height) st from h' _
  induction h with
  | nil => intro st; rfl
  | cons hcd _ ih =>
    intro st
    rw [List.foldl_cons, List.foldl_cons]
    rw [show runO width height st _ = runC width height st _ from
      render_corr width height _ _ hcd st] at *
    exact ih _

/-- C10 witness: the equivalence applied to the one-triangle corresponding
draw calls wDrawC and wDrawO on an 8x8 screen. -/
theorem C10_witness :
    [wDrawC].foldl (runC 8 8) RenderState.cleared =
      [wDrawO].foldl (runO 8 8) RenderState.cleared :=
  C10_renderer_equivalence 8 8 [wDrawC] [wDrawO]
    (List.Forall₂.cons
      (by
        refine ⟨rfl, ?_, fun nv => rfl⟩
        intro j hj
        fin_cases hj
        · exact ⟨⟨0, 0, 0, 1⟩, ⟨0, 0, 0⟩, rfl, by norm_num, rfl⟩
        · exact ⟨⟨2, 0, 0, 1⟩, ⟨2, 0, 0⟩, rfl, by norm_num, rfl⟩
        · exact ⟨⟨0, 2, 0, 1⟩, ⟨0, 2, 0⟩, rfl, by norm_num, rfl⟩)
      List.Forall₂.nil)

end Render3D
